import Mathlib

/-
  Verification of `skeleton_script_baseline_model.py`, a baseline impact
  predictor for SNPs: it parses a BLOSUM substitution matrix into a
  two-level dictionary, parses a VEP variant file into parallel lists,
  looks up one score per variant, and writes an `id<TAB>score` table.

  Modelling conventions:
  * A text file is a `List String` of its lines, without the trailing
    newline character of each line (Python's per-line iteration yields the
    terminator, and the script only ever removes it with `strip('\n')` or
    inspects the first character, so dropping terminators is faithful).
  * Python `dict` is an association list with first-match lookup and
    in-place update on assignment (`dictSet`/`dictGet?`).
  * Exceptions (`KeyError`, `IndexError`, `ValueError`) and `sys.exit`
    abort the run; both are modelled as `Except.error` with a message.
  * `os.path.exists` is an oracle `String → Bool` supplied to the driver;
    per the Python documentation `os.path.exists("")` is `False`, which
    theorems needing it take as a hypothesis on the oracle.
-/

namespace Baseline

/-- Python `dict` as an association list (insertion order kept). -/
abbrev PyDict (α β : Type) := List (α × β)

/-- Python `d[k]` lookup: first binding of `k`, `none` models `KeyError`. -/
def dictGet? {α β : Type} [DecidableEq α] : PyDict α β → α → Option β
  | [], _ => none
  | (k', v) :: rest, k => if k' = k then some v else dictGet? rest k

/-- Python `d[k] = v` assignment: update the binding in place, else append. -/
def dictSet {α β : Type} [DecidableEq α] : PyDict α β → α → β → PyDict α β
  | [], k, v => [(k, v)]
  | (k', v') :: rest, k, v =>
      if k' = k then (k, v) :: rest else (k', v') :: dictSet rest k v

/-- Two-level lookup `d[a][b]` as used on the BLOSUM dictionary. -/
def dictGet2 (d : PyDict String (PyDict String String)) (a b : String) :
    Option String :=
  (dictGet? d a).bind (fun row => dictGet? row b)

/-- Python `str.split(sep)` for a one-character separator, on char lists:
    splits at every occurrence, keeping empty pieces (`"".split(c) = ['']`). -/
def pyCharSplit (p : Char → Bool) : List Char → List (List Char)
  | [] => [[]]
  | c :: rest =>
      let r := pyCharSplit p rest
      if p c then [] :: r else (c :: r.headD []) :: r.tail

/-- Python whitespace for `str.split()` with no argument. -/
def isPyWs (c : Char) : Bool :=
  c == ' ' || c == '\t' || c == '\n' || c == '\r' || c.val == 11 || c.val == 12

/-- `line.split('\t')`. -/
def splitTab (s : String) : List String :=
  (pyCharSplit (fun c => c == '\t') s.data).map String.mk

/-- `vars.split('/')`. -/
def splitSlash (s : String) : List String :=
  (pyCharSplit (fun c => c == '/') s.data).map String.mk

/-- `line.split()`: split on whitespace runs, discarding empty pieces. -/
def splitWs (s : String) : List String :=
  ((pyCharSplit isPyWs s.data).filter (fun p => p ≠ [])).map String.mk

/-- `line.startswith(c)` for a one-character prefix. -/
def firstCharIs (s : String) (c : Char) : Bool :=
  match s.data with
  | [] => false
  | a :: _ => a == c

/-- Python `pat in s` substring test: `pat` occurs as a prefix of some
    suffix of `s` (char-list level). -/
def startsWithList : List Char → List Char → Bool
  | [], _ => true
  | _ :: _, [] => false
  | a :: as, b :: bs => a == b && startsWithList as bs

/-- Python `pat in s` (substring containment). -/
def containsList (pat : List Char) : List Char → Bool
  | [] => startsWithList pat []
  | c :: rest => startsWithList pat (c :: rest) || containsList pat rest

/-- Python `pat in s` on strings. -/
def strContains (s pat : String) : Bool := containsList pat.data s.data

/-- `s.endswith(pat)`: used only to state what a `.tsv` suffix would mean. -/
def strEndsWith (s pat : String) : Bool :=
  startsWithList pat.data.reverse s.data.reverse

/-- Whether a token is an integer literal (optional minus sign, digits):
    what storing "an integer score" would require of a matrix token. -/
def isIntTok (s : String) : Bool :=
  match s.data with
  | [] => false
  | '-' :: rest => rest ≠ [] && rest.all (fun c => c.isDigit)
  | cs => cs.all (fun c => c.isDigit)

/-- The identifier field of an output line: characters before the first tab. -/
def lineId (l : String) : String :=
  String.mk (l.data.takeWhile (fun c => !(c == '\t')))

/-! ## `parse_blosum` -/

/-- The line-reading loop of `parse_blosum`: skip lines starting with `#`
    or `x`, else record the first whitespace token as the row symbol and
    the remaining tokens as that row's scores.  (The Python slice
    `split()[1:len(line)]` keeps all tokens after the first, because a
    line of `n` characters never splits into more than `n` tokens.)
    An empty/whitespace-only line makes `split()[0]` raise `IndexError`. -/
def blosumLists : List String → Except String (List String × List (List String))
  | [] => .ok ([], [])
  | line :: rest =>
      if firstCharIs line '#' || firstCharIs line 'x' then blosumLists rest
      else
        match splitWs line with
        | [] => .error "IndexError: list index out of range"
        | t :: scoreToks =>
            match blosumLists rest with
            | .error e => .error e
            | .ok (aas, aa_scores) => .ok (t :: aas, scoreToks :: aa_scores)

/-- `blosum_dict = \x7b\x7d; for aa in aas: blosum_dict[aa] = \x7b\x7d`. -/
def dictInit (aas : List String) : PyDict String (PyDict String String) :=
  aas.foldl (fun d aa => dictSet d aa ([] : PyDict String String)) []

/-- The inner loop `for j in range(m): blosum_dict[aas[i]][aas[j]] = aa_scores[i][j]`,
    peeled from the right: `popCols … (m+1)` performs `popCols … m` and then
    the assignment for column `m`.  List indexing out of range is Python's
    `IndexError`; a missing outer key is a `KeyError` (unreachable after
    `dictInit`, but modelled). -/
def popCols (aas : List String) (aa_scores : List (List String)) (i : Nat)
    (d : PyDict String (PyDict String String)) :
    Nat → Except String (PyDict String (PyDict String String))
  | 0 => .ok d
  | m + 1 =>
      match popCols aas aa_scores i d m with
      | .error e => .error e
      | .ok d' =>
          match aa_scores.get? i with
          | none => .error "IndexError: list index out of range"
          | some row =>
              match row.get? m with
              | none => .error "IndexError: list index out of range"
              | some v =>
                  match aas.get? i, aas.get? m with
                  | some ai, some aj =>
                      match dictGet? d' ai with
                      | none => .error ("KeyError: " ++ ai)
                      | some inner => .ok (dictSet d' ai (dictSet inner aj v))
                  | _, _ => .error "IndexError: list index out of range"

/-- The outer loop `for i in range(r)`, peeled from the right; each step
    runs a full column sweep of length `aas.length`. -/
def popRows (aas : List String) (aa_scores : List (List String)) :
    Nat → PyDict String (PyDict String String) →
    Except String (PyDict String (PyDict String String))
  | 0, d => .ok d
  | i + 1, d =>
      match popRows aas aa_scores i d with
      | .error e => .error e
      | .ok d' => popCols aas aa_scores i d' aas.length

/-- `parse_blosum`: read the rows, then populate the two-level dictionary. -/
def parse_blosum (lines : List String) :
    Except String (PyDict String (PyDict String String)) :=
  match blosumLists lines with
  | .error e => .error e
  | .ok (aas, aa_scores) => popRows aas aa_scores aas.length (dictInit aas)

/-! ## `parse_vep` -/

/-- `parse_vep`: skip lines starting with `#`; for each other line take
    tab-field 0 as the HGVS id and split tab-field 1 on `/` into exactly
    a reference and a mutant symbol (`ValueError` otherwise; a line with
    fewer than two tab fields raises `IndexError`). -/
def parse_vep : List String →
    Except String (List String × List String × List String)
  | [] => .ok ([], [], [])
  | line :: rest =>
      if firstCharIs line '#' then parse_vep rest
      else
        match (splitTab line).get? 1 with
        | none => .error "IndexError: list index out of range"
        | some vars =>
            match splitSlash vars with
            | [ref_aa, mut_aa] =>
                match parse_vep rest with
                | .error e => .error e
                | .ok (ids, refs, muts) =>
                    .ok ((splitTab line).headD "" :: ids,
                         ref_aa :: refs, mut_aa :: muts)
            | _ => .error "ValueError: values to unpack"

/-! ## `run_baseline` -/

/-- The scoring loop `for i in range(n)`, peeled from the right: look up
    `blosum_dict[ref_aas[i]][mut_aas[i]]` and append it.  A missing outer
    key raises `KeyError(ref_aa)`, a missing inner key `KeyError(mut_aa)`. -/
def scoreLoop (ref_aas mut_aas : List String)
    (blosum_dict : PyDict String (PyDict String String)) :
    Nat → Except String (List String)
  | 0 => .ok []
  | i + 1 =>
      match scoreLoop ref_aas mut_aas blosum_dict i with
      | .error e => .error e
      | .ok scores =>
          match ref_aas.get? i with
          | none => .error "IndexError: list index out of range"
          | some ref_aa =>
              match mut_aas.get? i with
              | none => .error "IndexError: list index out of range"
              | some mut_aa =>
                  match dictGet? blosum_dict ref_aa with
                  | none => .error ("KeyError: " ++ ref_aa)
                  | some row =>
                      match dictGet? row mut_aa with
                      | none => .error ("KeyError: " ++ mut_aa)
                      | some score => .ok (scores ++ [score])

/-- `run_baseline`: one score per HGVS id, in order. -/
def run_baseline (hgvs_ids ref_aas mut_aas : List String)
    (blosum_dict : PyDict String (PyDict String String)) :
    Except String (List String) :=
  scoreLoop ref_aas mut_aas blosum_dict hgvs_ids.length

/-! ## `write_data` -/

/-- Concatenation of a sequence of `f.write` chunks. -/
def concatAll : List String → String
  | [] => ""
  | s :: rest => s ++ concatAll rest

/-- `write_data`: header line, then `id<TAB>score` per zipped pair, each
    chunk `\n`-terminated.  The result is the written file's content. -/
def write_data (hgvs_ids scores : List String) : String :=
  "# ID\tScore\n" ++
    concatAll ((hgvs_ids.zip scores).map (fun p => p.1 ++ "\t" ++ p.2 ++ "\n"))

/-- The output viewed as a list of lines (header first): each `f.write`
    chunk of `write_data` contributes exactly one line. -/
def out_lines (hgvs_ids scores : List String) : List String :=
  "# ID\tScore" :: (hgvs_ids.zip scores).map (fun p => p.1 ++ "\t" ++ p.2)

/-! ## driver (`main`) -/

/-- `os.path.split` (POSIX): split after the last `/`; the head keeps no
    trailing slashes unless it is empty or all slashes. -/
def os_path_split (p : String) : String × String :=
  let cs := p.data
  let tl := (cs.reverse.takeWhile (fun c => !(c == '/'))).reverse
  let hd := cs.take (cs.length - tl.length)
  let hd2 := if hd ≠ [] ∧ hd.any (fun c => !(c == '/'))
             then (hd.reverse.dropWhile (fun c => c == '/')).reverse
             else hd
  (String.mk hd2, String.mk tl)

/-- The `sys.exit` message for a filename without `.tsv`. -/
def tsvErrMsg (f : String) : String :=
  "ERROR: filename \"" ++ f ++
    "\" in the output file path argument should contain .tsv extension!"

/-- The `sys.exit` message for a missing output directory (the source
    concatenates two raw strings with no space, hence `inthe`). -/
def dirErrMsg (d : String) : String :=
  "ERROR: output directory \"" ++ d ++
    "\" to store baseline model output does not exist! Follow instructions inthe manual!"

/-- `main`: validate the output path (filename must contain `.tsv`; the
    directory part must exist per the `dirExists` oracle), then parse the
    matrix, parse the variants, score, and produce the output file's
    content.  `.error` means the process aborted with no output written. -/
def main (vepLines blosumLines : List String) (out_filepath : String)
    (dirExists : String → Bool) : Except String String :=
  let sp := os_path_split out_filepath
  if !(strContains sp.2 ".tsv") then .error (tsvErrMsg sp.2)
  else if !(dirExists sp.1) then .error (dirErrMsg sp.1)
  else
    match parse_blosum blosumLines with
    | .error e => .error e
    | .ok blosum_dict =>
        match parse_vep vepLines with
        | .error e => .error e
        | .ok (hgvs_ids, ref_aas, mut_aas) =>
            match run_baseline hgvs_ids ref_aas mut_aas blosum_dict with
            | .error e => .error e
            | .ok scores => .ok (write_data hgvs_ids scores)

/-! ## concrete fixtures used by witnesses and counterexamples -/

/-- A small matrix file: header row starting with `x`, then two data rows.
    Deliberately asymmetric: entry (A,V) is 0 but (V,A) is 9. -/
def blosumEx : List String := ["x A V", "A 4 0", "V 9 4"]

/-- The dictionary `parse_blosum` builds from `blosumEx`. -/
def dEx : PyDict String (PyDict String String) :=
  [("A", [("A", "4"), ("V", "0")]), ("V", [("A", "9"), ("V", "4")])]

/-- A small VEP file: one `#` header line, one data line. -/
def vepEx : List String := ["# hdr", "id1\tA/V\tGCA"]

/-- A directory-existence oracle where only `d` exists. -/
def fsEx : String → Bool := fun s => s == "d"

/-! ## helper lemmas: dictionaries -/

theorem dictGet?_set_self {α β : Type} [DecidableEq α]
    (d : PyDict α β) (k : α) (v : β) : dictGet? (dictSet d k v) k = some v := by
  induction d with
  | nil => simp [dictSet, dictGet?]
  | cons hd tl ih =>
      obtain ⟨k', v'⟩ := hd
      by_cases h : k' = k
      · simp [dictSet, dictGet?, h]
      · simp [dictSet, dictGet?, h, ih]

theorem dictGet?_set_ne {α β : Type} [DecidableEq α]
    (d : PyDict α β) (k k' : α) (v : β) (h : k' ≠ k) :
    dictGet? (dictSet d k v) k' = dictGet? d k' := by
  induction d with
  | nil =>
      simp only [dictSet, dictGet?]
      rw [if_neg (fun he => h he.symm)]
  | cons hd tl ih =>
      obtain ⟨k₀, v₀⟩ := hd
      by_cases h0 : k₀ = k
      · subst h0
        simp only [dictSet, if_pos rfl, dictGet?]
        rw [if_neg (fun he => h he.symm), if_neg (fun he => h he.symm)]
      · simp only [dictSet, if_neg h0, dictGet?]
        by_cases h1 : k₀ = k'
        · rw [if_pos h1, if_pos h1]
        · rw [if_neg h1, if_neg h1, ih]

theorem dictGet?_set_isSome {α β : Type} [DecidableEq α]
    (d : PyDict α β) (k a : α) (v : β) (h : (dictGet? d a).isSome) :
    (dictGet? (dictSet d k v) a).isSome := by
  by_cases hk : a = k
  · subst hk; simp [dictGet?_set_self]
  · rw [dictGet?_set_ne d k a v hk]; exact h

theorem dictInit_isSome_aux (aas : List String)
    (d : PyDict String (PyDict String String)) (a : String)
    (h : a ∈ aas ∨ (dictGet? d a).isSome) :
    (dictGet? (aas.foldl (fun d aa => dictSet d aa []) d) a).isSome := by
  induction aas generalizing d with
  | nil =>
      rcases h with h | h
      · cases h
      · simpa using h
  | cons hd tl ih =>
      simp only [List.foldl_cons]
      apply ih
      rcases h with h | h
      · rcases List.mem_cons.mp h with h | h
        · subst h
          right; simp [dictGet?_set_self]
        · left; exact h
      · right; exact dictGet?_set_isSome d hd a [] h

theorem dictInit_isSome (aas : List String) (a : String) (h : a ∈ aas) :
    (dictGet? (dictInit aas) a).isSome :=
  dictInit_isSome_aux aas [] a (Or.inl h)

/-! ## helper lemmas: splitting -/

theorem pyCharSplit_ne_nil (p : Char → Bool) (cs : List Char) :
    pyCharSplit p cs ≠ [] := by
  cases cs with
  | nil => simp [pyCharSplit]
  | cons c rest =>
      simp only [pyCharSplit]
      by_cases h : p c <;> simp [h]

theorem pyCharSplit_no_sep (p : Char → Bool) (cs : List Char)
    (piece : List Char) (hp : piece ∈ pyCharSplit p cs)
    (c : Char) (hc : c ∈ piece) : p c = false := by
  induction cs generalizing piece with
  | nil =>
      simp [pyCharSplit] at hp
      subst hp
      cases hc
  | cons a rest ih =>
      simp only [pyCharSplit] at hp
      by_cases ha : p a
      · simp only [if_pos ha, List.mem_cons] at hp
        rcases hp with hp | hp
        · subst hp; cases hc
        · exact ih piece hp hc
      · simp only [if_neg ha, List.mem_cons] at hp
        rcases hp with hp | hp
        · subst hp
          rcases List.mem_cons.mp hc with hc | hc
          · subst hc
            simpa using ha
          · cases hhd : pyCharSplit p rest with
            | nil => exact absurd hhd (pyCharSplit_ne_nil p rest)
            | cons q qs =>
                rw [hhd] at hc
                exact ih q (by rw [hhd]; exact List.mem_cons_self q qs)
                  (by simpa using hc)
        · exact ih piece (List.mem_of_mem_tail hp) hc

theorem splitTab_headD_no_tab (l : String) :
    '\t' ∉ ((splitTab l).headD "").data := by
  intro hmem
  have hne := pyCharSplit_ne_nil (fun c => c == '\t') l.data
  cases hq : pyCharSplit (fun c => c == '\t') l.data with
  | nil => exact hne hq
  | cons q qs =>
      have : (splitTab l).headD "" = String.mk q := by
        simp [splitTab, hq]
      rw [this] at hmem
      have := pyCharSplit_no_sep (fun c => c == '\t') l.data q
        (by rw [hq]; exact List.mem_cons_self q qs) '\t' hmem
      simp at this

/-! ## helper lemmas: `parse_vep` -/

theorem parse_vep_filter (lines : List String) :
    parse_vep lines =
      parse_vep (lines.filter (fun l => !(firstCharIs l '#'))) := by
  induction lines with
  | nil => rfl
  | cons line rest ih =>
      cases hcond : firstCharIs line '#' with
      | true =>
          simp only [List.filter_cons, hcond, Bool.not_true, if_false,
            Bool.false_eq_true]
          rw [parse_vep, hcond]
          simpa using ih
      | false =>
          simp only [List.filter_cons, hcond, Bool.not_false, if_true]
          rw [parse_vep, hcond, parse_vep, hcond]
          simp only [Bool.false_eq_true, if_false]
          rw [ih]

theorem parse_vep_shape (lines : List String)
    (ids refs muts : List String)
    (h : parse_vep lines = .ok (ids, refs, muts)) :
    ids = (lines.filter (fun l => !(firstCharIs l '#'))).map
        (fun l => (splitTab l).headD "") ∧
    refs.length = ids.length ∧ muts.length = ids.length := by
  induction lines generalizing ids refs muts with
  | nil =>
      rw [parse_vep] at h
      injection h with h
      obtain ⟨h1, h2, h3⟩ : [] = ids ∧ [] = refs ∧ [] = muts := by
        simpa using h
      subst h1; subst h2; subst h3
      simp
  | cons line rest ih =>
      rw [parse_vep] at h
      cases hcond : firstCharIs line '#' with
      | true =>
          rw [hcond] at h
          simp only [if_true] at h
          simp only [List.filter_cons, hcond, Bool.not_true, if_false,
            Bool.false_eq_true]
          exact ih ids refs muts h
      | false =>
          rw [hcond] at h
          simp only [Bool.false_eq_true, if_false] at h
          simp only [List.filter_cons, hcond, Bool.not_false, if_true]
          cases hf : (splitTab line).get? 1 with
          | none => rw [hf] at h; cases h
          | some vars =>
              rw [hf] at h
              dsimp only at h
              cases hs : splitSlash vars with
              | nil => rw [hs] at h; cases h
              | cons r rest2 =>
                  cases rest2 with
                  | nil => rw [hs] at h; cases h
                  | cons m rest3 =>
                      cases rest3 with
                      | cons a rest4 => rw [hs] at h; cases h
                      | nil =>
                          rw [hs] at h
                          dsimp only at h
                          cases hrec : parse_vep rest with
                          | error e => rw [hrec] at h; cases h
                          | ok triple =>
                              obtain ⟨ids', refs', muts'⟩ := triple
                              rw [hrec] at h
                              dsimp only at h
                              injection h with h
                              obtain ⟨hids, hrefs, hmuts⟩ :
                                  (splitTab line).headD "" :: ids' = ids ∧
                                  r :: refs' = refs ∧ m :: muts' = muts := by
                                simpa using h
                              obtain ⟨hi, hr, hm⟩ := ih ids' refs' muts' hrec
                              subst hids; subst hrefs; subst hmuts
                              simp [hi, hr, hm]

theorem parse_vep_err_of_bad (lines : List String) (l vars : String)
    (hdata : firstCharIs l '#' = false)
    (hfield : (splitTab l).get? 1 = some vars)
    (hslash : (splitSlash vars).length ≠ 2)
    (hmem : l ∈ lines) :
    ∃ e, parse_vep lines = .error e := by
  revert hmem
  induction lines with
  | nil => intro hmem; cases hmem
  | cons line rest ih =>
      intro hmem
      rw [parse_vep]
      cases hcond : firstCharIs line '#' with
      | true =>
          simp only [if_true]
          apply ih
          rcases List.mem_cons.mp hmem with he | he
          · subst he; rw [hcond] at hdata; cases hdata
          · exact he
      | false =>
          simp only [Bool.false_eq_true, if_false]
          cases hf : (splitTab line).get? 1 with
          | none => exact ⟨_, rfl⟩
          | some vars' =>
              dsimp only
              cases hs : splitSlash vars' with
              | nil => exact ⟨_, rfl⟩
              | cons r rest2 =>
                  cases rest2 with
                  | nil => exact ⟨_, rfl⟩
                  | cons m rest3 =>
                      cases rest3 with
                      | cons a rest4 => exact ⟨_, rfl⟩
                      | nil =>
                          dsimp only
                          rcases List.mem_cons.mp hmem with he | he
                          · subst he
                            rw [hf] at hfield
                            injection hfield with hv
                            subst hv
                            rw [hs] at hslash
                            simp at hslash
                          · obtain ⟨e, he2⟩ := ih he
                            rw [he2]
                            exact ⟨e, rfl⟩

/-! ## helper lemmas: `scoreLoop` -/

theorem scoreLoop_length (refs muts : List String)
    (d : PyDict String (PyDict String String)) (n : Nat) (s : List String)
    (h : scoreLoop refs muts d n = .ok s) : s.length = n := by
  induction n generalizing s with
  | zero =>
      rw [scoreLoop] at h
      injection h with h
      subst h
      rfl
  | succ i ih =>
      rw [scoreLoop] at h
      cases hrec : scoreLoop refs muts d i with
      | error e => rw [hrec] at h; cases h
      | ok s0 =>
          rw [hrec] at h; dsimp only at h
          cases h1 : refs.get? i with
          | none => rw [h1] at h; cases h
          | some ri =>
              rw [h1] at h; dsimp only at h
              cases h2 : muts.get? i with
              | none => rw [h2] at h; cases h
              | some mi =>
                  rw [h2] at h; dsimp only at h
                  cases h3 : dictGet? d ri with
                  | none => rw [h3] at h; cases h
                  | some row =>
                      rw [h3] at h; dsimp only at h
                      cases h4 : dictGet? row mi with
                      | none => rw [h4] at h; cases h
                      | some v =>
                          rw [h4] at h; dsimp only at h
                          injection h with h
                          subst h
                          simp [ih s0 hrec]

theorem scoreLoop_get (refs muts : List String)
    (d : PyDict String (PyDict String String)) (n : Nat) (s : List String)
    (h : scoreLoop refs muts d n = .ok s) (i : Nat) (hi : i < n) :
    ∃ ri mi row v, refs.get? i = some ri ∧ muts.get? i = some mi ∧
      dictGet? d ri = some row ∧ dictGet? row mi = some v ∧
      s.get? i = some v := by
  induction n generalizing s with
  | zero => omega
  | succ k ih =>
      rw [scoreLoop] at h
      cases hrec : scoreLoop refs muts d k with
      | error e => rw [hrec] at h; cases h
      | ok s0 =>
          rw [hrec] at h; dsimp only at h
          cases h1 : refs.get? k with
          | none => rw [h1] at h; cases h
          | some rk =>
              rw [h1] at h; dsimp only at h
              cases h2 : muts.get? k with
              | none => rw [h2] at h; cases h
              | some mk2 =>
                  rw [h2] at h; dsimp only at h
                  cases h3 : dictGet? d rk with
                  | none => rw [h3] at h; cases h
                  | some row =>
                      rw [h3] at h; dsimp only at h
                      cases h4 : dictGet? row mk2 with
                      | none => rw [h4] at h; cases h
                      | some v =>
                          rw [h4] at h; dsimp only at h
                          injection h with h
                          subst h
                          have hlen : s0.length = k := scoreLoop_length refs muts d k s0 hrec
                          rcases Nat.lt_succ_iff_lt_or_eq.mp hi with hik | hik
                          · obtain ⟨ri, mi, row', v', ha, hb, hc, hd, he⟩ :=
                              ih s0 hrec hik
                            refine ⟨ri, mi, row', v', ha, hb, hc, hd, ?_⟩
                            rw [List.get?_append (by omega)]
                            exact he
                          · subst hik
                            refine ⟨rk, mk2, row, v, h1, h2, h3, h4, ?_⟩
                            rw [← hlen]
                            exact List.get?_concat_length s0 v

theorem scoreLoop_ok_of (refs muts : List String)
    (d : PyDict String (PyDict String String)) (n : Nat)
    (h : ∀ i, i < n → ∃ ri mi row v, refs.get? i = some ri ∧
        muts.get? i = some mi ∧ dictGet? d ri = some row ∧
        dictGet? row mi = some v) :
    ∃ s, scoreLoop refs muts d n = .ok s := by
  induction n with
  | zero => exact ⟨[], rfl⟩
  | succ k ih =>
      obtain ⟨s0, hs0⟩ := ih (fun i hi => h i (Nat.lt_succ_of_lt hi))
      obtain ⟨ri, mi, row, v, h1, h2, h3, h4⟩ := h k (Nat.lt_succ_self k)
      refine ⟨s0 ++ [v], ?_⟩
      rw [scoreLoop, hs0]
      dsimp only
      rw [h1]
      dsimp only
      rw [h2]
      dsimp only
      rw [h3]
      dsimp only
      rw [h4]

theorem scoreLoop_error_add (refs muts : List String)
    (d : PyDict String (PyDict String String)) (m : Nat) (e : String)
    (h : scoreLoop refs muts d m = .error e) (k : Nat) :
    scoreLoop refs muts d (m + k) = .error e := by
  induction k with
  | zero => exact h
  | succ j ih =>
      show scoreLoop refs muts d ((m + j) + 1) = .error e
      rw [scoreLoop, ih]

theorem scoreLoop_first_fail (refs muts : List String)
    (d : PyDict String (PyDict String String)) (i : Nat) (ri mi : String)
    (hpre : ∀ j, j < i → ∃ rj mj row v, refs.get? j = some rj ∧
        muts.get? j = some mj ∧ dictGet? d rj = some row ∧
        dictGet? row mj = some v)
    (hri : refs.get? i = some ri) (hmi : muts.get? i = some mi) :
    (dictGet? d ri = none → ∀ n, i < n →
        scoreLoop refs muts d n = .error ("KeyError: " ++ ri)) ∧
    (∀ row, dictGet? d ri = some row → dictGet? row mi = none → ∀ n, i < n →
        scoreLoop refs muts d n = .error ("KeyError: " ++ mi)) := by
  obtain ⟨s0, hs0⟩ := scoreLoop_ok_of refs muts d i hpre
  constructor
  · intro hfail n hn
    have hstep : scoreLoop refs muts d (i + 1) = .error ("KeyError: " ++ ri) := by
      rw [scoreLoop, hs0]
      dsimp only
      rw [hri]
      dsimp only
      rw [hmi]
      dsimp only
      rw [hfail]
    have := scoreLoop_error_add refs muts d (i + 1) _ hstep (n - (i + 1))
    rwa [Nat.add_sub_cancel' (by omega)] at this
  · intro row hrow hfail n hn
    have hstep : scoreLoop refs muts d (i + 1) = .error ("KeyError: " ++ mi) := by
      rw [scoreLoop, hs0]
      dsimp only
      rw [hri]
      dsimp only
      rw [hmi]
      dsimp only
      rw [hrow]
      dsimp only
      rw [hfail]
    have := scoreLoop_error_add refs muts d (i + 1) _ hstep (n - (i + 1))
    rwa [Nat.add_sub_cancel' (by omega)] at this

/-! ## helper lemmas: `parse_blosum` -/

theorem blosumLists_skip (pre post : List String) (l : String)
    (h : firstCharIs l '#' = true ∨ firstCharIs l 'x' = true) :
    blosumLists (pre ++ l :: post) = blosumLists (pre ++ post) := by
  induction pre with
  | nil =>
      simp only [List.nil_append]
      rw [blosumLists]
      rcases h with h | h <;> simp [h]
  | cons p rest ih =>
      simp only [List.cons_append]
      rw [blosumLists]
      conv_rhs => rw [blosumLists]
      cases hc : (firstCharIs p '#' || firstCharIs p 'x') with
      | true =>
          simp only [if_true]
          exact ih
      | false =>
          simp only [Bool.false_eq_true, if_false]
          cases hs : splitWs p with
          | nil => rfl
          | cons t toks => rw [ih]

theorem blosumLists_len (lines : List String) (aas : List String)
    (rows : List (List String))
    (h : blosumLists lines = .ok (aas, rows)) : rows.length = aas.length := by
  induction lines generalizing aas rows with
  | nil =>
      rw [blosumLists] at h
      injection h with h
      obtain ⟨h1, h2⟩ : [] = aas ∧ [] = rows := by simpa using h
      subst h1; subst h2
      rfl
  | cons line rest ih =>
      rw [blosumLists] at h
      cases hc : (firstCharIs line '#' || firstCharIs line 'x') with
      | true =>
          rw [hc] at h
          simp only [if_true] at h
          exact ih aas rows h
      | false =>
          rw [hc] at h
          simp only [Bool.false_eq_true, if_false] at h
          cases hs : splitWs line with
          | nil => rw [hs] at h; cases h
          | cons t toks =>
              rw [hs] at h
              dsimp only at h
              cases hrec : blosumLists rest with
              | error e => rw [hrec] at h; cases h
              | ok pair =>
                  obtain ⟨aas0, rows0⟩ := pair
                  rw [hrec] at h
                  dsimp only at h
                  injection h with h
                  obtain ⟨h1, h2⟩ : t :: aas0 = aas ∧ toks :: rows0 = rows := by
                    simpa using h
                  subst h1; subst h2
                  simp [ih aas0 rows0 hrec]

theorem nodup_get?_ne (l : List String) (hnd : l.Nodup) (i j : Nat)
    (a b : String) (hi : l.get? i = some a) (hj : l.get? j = some b)
    (hij : i ≠ j) : a ≠ b := by
  intro hab
  subst hab
  obtain ⟨hi', hgi⟩ := List.get?_eq_some.mp hi
  obtain ⟨hj', hgj⟩ := List.get?_eq_some.mp hj
  have heq : (⟨i, hi'⟩ : Fin l.length) = ⟨j, hj'⟩ :=
    (List.Nodup.get_inj_iff hnd).mp (by rw [hgi, hgj])
  exact hij (congrArg Fin.val heq)

theorem popCols_spec (aas : List String) (rows : List (List String)) (i : Nat)
    (ai : String) (ri : List String)
    (hai : aas.get? i = some ai) (hri : rows.get? i = some ri)
    (hnd : aas.Nodup) (hlen : aas.length ≤ ri.length)
    (d : PyDict String (PyDict String String))
    (hd : (dictGet? d ai).isSome)
    (m : Nat) (hm : m ≤ aas.length) :
    ∃ d', popCols aas rows i d m = .ok d' ∧
      (∀ k, k ≠ ai → dictGet? d' k = dictGet? d k) ∧
      (∀ a, (dictGet? d a).isSome → (dictGet? d' a).isSome) ∧
      ∃ inner, dictGet? d' ai = some inner ∧
        ∀ j aj v, j < m → aas.get? j = some aj → ri.get? j = some v →
          dictGet? inner aj = some v := by
  induction m with
  | zero =>
      obtain ⟨inner, hinner⟩ := Option.isSome_iff_exists.mp hd
      exact ⟨d, rfl, fun k _ => rfl, fun a ha => ha, inner, hinner,
        fun j aj v hj _ _ => (Nat.not_lt_zero j hj).elim⟩
  | succ m ih =>
      have hm' : m ≤ aas.length := Nat.le_of_succ_le hm
      obtain ⟨d0, hd0, hpres, hsome, inner0, hinner0, hcontent⟩ := ih hm'
      have hmlt : m < aas.length := hm
      obtain ⟨am, ham⟩ : ∃ am, aas.get? m = some am :=
        ⟨_, List.get?_eq_get hmlt⟩
      obtain ⟨v, hv⟩ : ∃ v, ri.get? m = some v :=
        ⟨_, List.get?_eq_get (lt_of_lt_of_le hmlt hlen)⟩
      refine ⟨dictSet d0 ai (dictSet inner0 am v), ?_, ?_, ?_, ?_⟩
      · rw [popCols, hd0]
        dsimp only
        rw [hri]
        dsimp only
        rw [hv]
        dsimp only
        rw [hai, ham]
        dsimp only
        rw [hinner0]
      · intro k hk
        rw [dictGet?_set_ne d0 ai k _ hk, hpres k hk]
      · intro a ha
        exact dictGet?_set_isSome d0 ai a _ (hsome a ha)
      · refine ⟨dictSet inner0 am v, dictGet?_set_self d0 ai _, ?_⟩
        intro j aj w hj haj hw
        rcases Nat.lt_succ_iff_lt_or_eq.mp hj with hjm | hjm
        · have hne : aj ≠ am := nodup_get?_ne aas hnd j m aj am haj ham (by omega)
          rw [dictGet?_set_ne inner0 am aj v hne]
          exact hcontent j aj w hjm haj hw
        · subst hjm
          rw [haj] at ham
          injection ham with ham
          subst ham
          rw [hw] at hv
          injection hv with hv
          subst hv
          exact dictGet?_set_self inner0 _ _

theorem popRows_spec (aas : List String) (rows : List (List String))
    (hnd : aas.Nodup) (hlenr : rows.length = aas.length)
    (hrl : ∀ r ∈ rows, aas.length ≤ r.length)
    (d : PyDict String (PyDict String String))
    (hall : ∀ a ∈ aas, (dictGet? d a).isSome)
    (r : Nat) (hr : r ≤ aas.length) :
    ∃ d', popRows aas rows r d = .ok d' ∧
      (∀ a ∈ aas, (dictGet? d' a).isSome) ∧
      ∀ i ai ri, i < r → aas.get? i = some ai → rows.get? i = some ri →
        ∃ inner, dictGet? d' ai = some inner ∧
          ∀ j aj v, j < aas.length → aas.get? j = some aj →
            ri.get? j = some v → dictGet? inner aj = some v := by
  induction r with
  | zero =>
      exact ⟨d, rfl, hall, fun i ai ri hi _ _ => (Nat.not_lt_zero i hi).elim⟩
  | succ r ih =>
      have hr' : r ≤ aas.length := Nat.le_of_succ_le hr
      obtain ⟨d0, hd0, hall0, hcontent0⟩ := ih hr'
      have hrlt : r < aas.length := hr
      obtain ⟨ar, har⟩ : ∃ a, aas.get? r = some a :=
        ⟨_, List.get?_eq_get hrlt⟩
      obtain ⟨rr, hrr⟩ : ∃ x, rows.get? r = some x :=
        ⟨_, List.get?_eq_get (by omega)⟩
      have hdar : (dictGet? d0 ar).isSome := hall0 ar (List.get?_mem har)
      have hrrlen : aas.length ≤ rr.length := hrl rr (List.get?_mem hrr)
      obtain ⟨d1, hd1, hpres1, hsome1, inner1, hinner1, hcontent1⟩ :=
        popCols_spec aas rows r ar rr har hrr hnd hrrlen d0 hdar
          aas.length (le_refl _)
      refine ⟨d1, ?_, ?_, ?_⟩
      · rw [popRows, hd0]
        dsimp only
        exact hd1
      · intro a ha
        exact hsome1 a (hall0 a ha)
      · intro i ai ri hi hai hri
        rcases Nat.lt_succ_iff_lt_or_eq.mp hi with hir | hir
        · obtain ⟨inner, hinner, hc⟩ := hcontent0 i ai ri hir hai hri
          have hne : ai ≠ ar := nodup_get?_ne aas hnd i r ai ar hai har (by omega)
          refine ⟨inner, ?_, hc⟩
          rw [hpres1 ai hne]
          exact hinner
        · subst hir
          rw [hai] at har
          injection har with har
          subst har
          rw [hri] at hrr
          injection hrr with hrr
          subst hrr
          exact ⟨inner1, hinner1, fun j aj v hj haj hv =>
            hcontent1 j aj v hj haj hv⟩

theorem parse_blosum_raw (lines : List String) (aas : List String)
    (rows : List (List String))
    (h : blosumLists lines = .ok (aas, rows))
    (hnd : aas.Nodup)
    (hrl : ∀ r ∈ rows, aas.length ≤ r.length) :
    ∃ d, parse_blosum lines = .ok d ∧
      ∀ i j ai aj ri v, aas.get? i = some ai → aas.get? j = some aj →
        rows.get? i = some ri → ri.get? j = some v →
        dictGet2 d ai aj = some v := by
  have hlenr : rows.length = aas.length := blosumLists_len lines aas rows h
  obtain ⟨d', hpop, hall, hcontent⟩ := popRows_spec aas rows hnd hlenr hrl
    (dictInit aas) (fun a ha => dictInit_isSome aas a ha) aas.length (le_refl _)
  refine ⟨d', ?_, ?_⟩
  · rw [parse_blosum, h]
    dsimp only
    exact hpop
  · intro i j ai aj ri v hai haj hri hv
    have hi : i < aas.length := (List.get?_eq_some.mp hai).1
    have hj : j < aas.length := (List.get?_eq_some.mp haj).1
    obtain ⟨inner, hinner, hc⟩ := hcontent i ai ri hi hai hri
    rw [dictGet2, hinner]
    exact hc j aj v hj haj hv

/-! ## helper lemmas: strings, output lines, path splitting -/

theorem strMk_data (s : String) : String.mk s.data = s := by
  cases s
  rfl

theorem takeWhile_all (p : Char → Bool) (cs : List Char)
    (h : ∀ c ∈ cs, p c = true) : cs.takeWhile p = cs := by
  induction cs with
  | nil => rfl
  | cons a rest ih =>
      simp only [List.takeWhile_cons, h a (List.mem_cons_self a rest), if_true]
      rw [ih (fun c hc => h c (List.mem_cons_of_mem a hc))]

theorem takeWhile_append_sep (p : Char → Bool) (as bs : List Char)
    (h : ∀ c ∈ as, p c = true) (csep : Char) (hsep : p csep = false) :
    (as ++ csep :: bs).takeWhile p = as := by
  induction as with
  | nil => simp [List.takeWhile_cons, hsep]
  | cons a rest ih =>
      simp only [List.cons_append, List.takeWhile_cons,
        h a (List.mem_cons_self a rest), if_true]
      rw [ih (fun c hc => h c (List.mem_cons_of_mem a hc))]

theorem lineId_append (a b : String) (h : '\t' ∉ a.data) :
    lineId (a ++ "\t" ++ b) = a := by
  rw [lineId]
  have hdata : (a ++ "\t" ++ b).data = a.data ++ '\t' :: b.data := by
    rw [String.data_append, String.data_append]
    simp [List.append_assoc]
  have hall : ∀ c ∈ a.data, (fun c => !(c == '\t')) c = true := by
    intro c hc
    simp only [Bool.not_eq_true']
    rw [beq_eq_false_iff_ne]
    exact fun he => h (he ▸ hc)
  rw [hdata, takeWhile_append_sep _ _ _ hall '\t' (by simp)]

theorem zip_get? (l1 l2 : List String) (i : Nat) (a b : String)
    (h1 : l1.get? i = some a) (h2 : l2.get? i = some b) :
    (l1.zip l2).get? i = some (a, b) := by
  induction l1 generalizing l2 i with
  | nil => cases h1
  | cons x xs ih =>
      cases l2 with
      | nil => cases h2
      | cons y ys =>
          cases i with
          | zero =>
              injection h1 with h1
              injection h2 with h2
              subst h1; subst h2
              rfl
          | succ j =>
              simp only [List.zip_cons_cons, List.get?_cons_succ] at *
              exact ih ys j h1 h2

theorem write_data_as_lines (ids scores : List String) :
    write_data ids scores =
      concatAll ((out_lines ids scores).map (fun l => l ++ "\n")) := by
  rw [write_data, out_lines]
  simp only [List.map_cons, concatAll, List.map_map]
  rfl

theorem os_path_split_no_slash (p : String) (h : '/' ∉ p.data) :
    os_path_split p = ("", p) := by
  rw [os_path_split]
  have hall : ∀ c ∈ p.data.reverse, (fun c => !(c == '/')) c = true := by
    intro c hc
    simp only [Bool.not_eq_true']
    rw [beq_eq_false_iff_ne]
    exact fun he => h (he ▸ List.mem_reverse.mp hc)
  rw [takeWhile_all _ _ hall, List.reverse_reverse]
  simp only [Nat.sub_self, List.take_zero]
  rw [if_neg (by simp)]

/-! ## claim C1 -/

/-- C1: for every variant record, the score produced by `run_baseline` is
exactly the matrix entry keyed by (referenceSymbol, mutantSymbol) in that
order — the value of `blosum_dict[ref][mut]` — with no symmetrization,
normalization, or other transformation.  The witness instantiates this on
a deliberately asymmetric matrix where entry (A,V) differs from (V,A). -/
theorem c1_score_is_exact_matrix_lookup (ids refs muts : List String)
    (d : PyDict String (PyDict String String)) (scores : List String)
    (h : run_baseline ids refs muts d = .ok scores) :
    scores.length = ids.length ∧
    ∀ i, i < ids.length → ∃ ri mi row v,
      refs.get? i = some ri ∧ muts.get? i = some mi ∧
      dictGet? d ri = some row ∧ dictGet? row mi = some v ∧
      scores.get? i = some v := by
  refine ⟨scoreLoop_length refs muts d ids.length scores h, ?_⟩
  intro i hi
  exact scoreLoop_get refs muts d ids.length scores h i hi

/-- C1 witness: on the asymmetric matrix `dEx` (entry (A,V) = "0",
entry (V,A) = "9"), scoring reference A, mutant V yields exactly
`dEx[A][V]`. -/
theorem c1_witness :
    dictGet2 dEx "A" "V" ≠ dictGet2 dEx "V" "A" ∧
    ((["0"] : List String).length = (["id1"] : List String).length ∧
      ∀ i, i < (["id1"] : List String).length → ∃ ri mi row v,
        (["A"] : List String).get? i = some ri ∧
        (["V"] : List String).get? i = some mi ∧
        dictGet? dEx ri = some row ∧ dictGet? row mi = some v ∧
        (["0"] : List String).get? i = some v) :=
  ⟨by decide, c1_score_is_exact_matrix_lookup ["id1"] ["A"] ["V"] dEx ["0"] rfl⟩

/-! ## claim C2 -/

/-- C2: for every variant file whose data lines (the lines the parser
treats as records, i.e. those not starting with `#`) parse and score
successfully, the output has exactly one header line plus one line per
record, and the i-th output line's identifier (the text before its first
tab) equals the i-th parsed input identifier — order preserved, nothing
dropped, duplicated or reordered. -/
theorem c2_output_preserves_count_and_order
    (lines ids refs muts : List String)
    (d : PyDict String (PyDict String String)) (scores : List String)
    (hp : parse_vep lines = .ok (ids, refs, muts))
    (hr : run_baseline ids refs muts d = .ok scores) :
    ids.length = (lines.filter (fun l => !(firstCharIs l '#'))).length ∧
    (out_lines ids scores).length = 1 + ids.length ∧
    write_data ids scores =
      concatAll ((out_lines ids scores).map (fun l => l ++ "\n")) ∧
    ∀ i, i < ids.length → ∃ idi si,
      ids.get? i = some idi ∧ scores.get? i = some si ∧
      (out_lines ids scores).get? (i + 1) = some (idi ++ "\t" ++ si) ∧
      lineId (idi ++ "\t" ++ si) = idi := by
  obtain ⟨hids, hrlen, hmlen⟩ := parse_vep_shape lines ids refs muts hp
  have hslen : scores.length = ids.length :=
    scoreLoop_length refs muts d ids.length scores hr
  have hfl : ids.length =
      (lines.filter (fun l => !(firstCharIs l '#'))).length := by
    rw [hids]
    simp
  refine ⟨hfl, ?_, write_data_as_lines ids scores, ?_⟩
  · rw [out_lines]
    simp [List.length_zip, hslen, Nat.add_comm]
  · intro i hi
    obtain ⟨idi, hidi⟩ : ∃ x, ids.get? i = some x :=
      ⟨_, List.get?_eq_get hi⟩
    obtain ⟨si, hsi⟩ : ∃ x, scores.get? i = some x :=
      ⟨_, List.get?_eq_get (by omega)⟩
    have hz := zip_get? ids scores i idi si hidi hsi
    have hout : (out_lines ids scores).get? (i + 1) =
        some (idi ++ "\t" ++ si) := by
      rw [out_lines, List.get?_cons_succ, List.get?_map, hz]
      rfl
    have hmem : idi ∈ ids := List.get?_mem hidi
    rw [hids] at hmem
    obtain ⟨l, hl, hle⟩ := List.mem_map.mp hmem
    have hnt : '\t' ∉ idi.data := by
      rw [← hle]
      exact splitTab_headD_no_tab l
    exact ⟨idi, si, hidi, hsi, hout, lineId_append idi si hnt⟩

/-- C2 witness: on the two-line example file (one `#` header, one record)
the output is one header line plus one data line carrying identifier
`id1`. -/
theorem c2_witness :
    (["id1"] : List String).length =
      (vepEx.filter (fun l => !(firstCharIs l '#'))).length ∧
    (out_lines ["id1"] ["0"]).length = 1 + (["id1"] : List String).length ∧
    write_data ["id1"] ["0"] =
      concatAll ((out_lines ["id1"] ["0"]).map (fun l => l ++ "\n")) ∧
    ∀ i, i < (["id1"] : List String).length → ∃ idi si,
      (["id1"] : List String).get? i = some idi ∧
      (["0"] : List String).get? i = some si ∧
      (out_lines ["id1"] ["0"]).get? (i + 1) = some (idi ++ "\t" ++ si) ∧
      lineId (idi ++ "\t" ++ si) = idi :=
  c2_output_preserves_count_and_order vepEx ["id1"] ["A"] ["V"] dEx ["0"]
    rfl rfl

/-! ## claim C3 -/

/-- C3 counterexample: with reference symbol `B` absent from `dEx`, the
run fails with `KeyError: B` — an error that does not mention the
variant's identifier `id1` (nor the symbol pair): only the missing key.
This refutes the claim that the error identifies the identifier and the
missing symbol pair. -/
theorem c3_counterexample :
    run_baseline ["id1"] ["B"] ["A"] dEx = .error "KeyError: B" ∧
    strContains "KeyError: B" "id1" = false :=
  ⟨rfl, rfl⟩

/-- C3 (amended): for a record whose reference or mutant symbol is absent
from the matrix (earlier records scoring fine), the run fails with a
`KeyError` naming only the missing symbol — the reference symbol if it is
absent, otherwise the mutant symbol — and never yields a default or zero
score (the result is an error, not a score list). -/
theorem c3_missing_symbol_is_keyerror (ids refs muts : List String)
    (d : PyDict String (PyDict String String)) (i : Nat) (ri mi : String)
    (hi : i < ids.length)
    (hri : refs.get? i = some ri) (hmi : muts.get? i = some mi)
    (hpre : ∀ j, j < i → ∃ rj mj row v, refs.get? j = some rj ∧
        muts.get? j = some mj ∧ dictGet? d rj = some row ∧
        dictGet? row mj = some v) :
    (dictGet? d ri = none →
      run_baseline ids refs muts d = .error ("KeyError: " ++ ri)) ∧
    (∀ row, dictGet? d ri = some row → dictGet? row mi = none →
      run_baseline ids refs muts d = .error ("KeyError: " ++ mi)) := by
  obtain ⟨h1, h2⟩ := scoreLoop_first_fail refs muts d i ri mi hpre hri hmi
  exact ⟨fun hf => h1 hf ids.length hi,
    fun row hrow hf => h2 row hrow hf ids.length hi⟩

/-- C3 witness: the amended statement instantiated on `dEx` with missing
reference symbol `B` (and, for the second branch, missing mutant key). -/
theorem c3_witness :
    (dictGet? dEx "B" = none →
      run_baseline ["id1"] ["B"] ["A"] dEx = .error ("KeyError: " ++ "B")) ∧
    (∀ row, dictGet? dEx "B" = some row → dictGet? row "A" = none →
      run_baseline ["id1"] ["B"] ["A"] dEx = .error ("KeyError: " ++ "A")) :=
  c3_missing_symbol_is_keyerror ["id1"] ["B"] ["A"] dEx 0 "B" "A"
    (by decide) rfl rfl (fun j hj => absurd hj (Nat.not_lt_zero j))

/-! ## claim C4 -/

/-- C4 counterexample: `parse_blosum` accepts a matrix whose row `A`
carries the non-integer score token `z`: no error is raised, and the
stored "score" is the raw string `"z"`.  This refutes the claim that the
loader fails fast on non-integer score tokens and that every stored score
is an integer. -/
theorem c4_counterexample :
    parse_blosum ["A 4 z", "B 1 2"] =
      .ok [("A", [("A", "4"), ("B", "z")]), ("B", [("A", "1"), ("B", "2")])] ∧
    isIntTok "z" = false :=
  ⟨rfl, rfl⟩

/-- C4 (amended): the matrix loader performs no validation at all: as long
as every kept line has a first token and every row has at least as many
score tokens as there are rows, loading succeeds and every entry of the
resulting dictionary is the raw (unparsed, possibly non-integer) string
token from the file, `matrix[aas[i]][aas[j]] = rows[i][j]`.  (A row with
too few tokens fails with a bare `IndexError`, not a descriptive message;
extra tokens are silently ignored; squareness and integerness are never
checked.) -/
theorem c4_loader_stores_raw_tokens (lines : List String)
    (aas : List String) (rows : List (List String))
    (h : blosumLists lines = .ok (aas, rows)) (hnd : aas.Nodup)
    (hrl : ∀ r ∈ rows, aas.length ≤ r.length) :
    ∃ d, parse_blosum lines = .ok d ∧
      ∀ i j ai aj ri v, aas.get? i = some ai → aas.get? j = some aj →
        rows.get? i = some ri → ri.get? j = some v →
        dictGet2 d ai aj = some v :=
  parse_blosum_raw lines aas rows h hnd hrl

/-- C4 witness: the amended statement instantiated on the matrix with the
non-integer token `z`. -/
theorem c4_witness :
    ∃ d, parse_blosum ["A 4 z", "B 1 2"] = .ok d ∧
      ∀ i j ai aj ri v,
        (["A", "B"] : List String).get? i = some ai →
        (["A", "B"] : List String).get? j = some aj →
        ([["4", "z"], ["1", "2"]] : List (List String)).get? i = some ri →
        ri.get? j = some v →
        dictGet2 d ai aj = some v :=
  c4_loader_stores_raw_tokens ["A 4 z", "B 1 2"] ["A", "B"]
    [["4", "z"], ["1", "2"]] rfl (by decide) (by decide)

/-! ## claim C5 -/

/-- C5 counterexample: a variant file whose first line does not start with
`#` has that first line parsed as a data record (it becomes identifier
`id0`), refuting the claim that the first line is skipped unconditionally
and never parsed as data. -/
theorem c5_counterexample :
    parse_vep ["id0\tA/V\tGCA"] = .ok (["id0"], ["A"], ["V"]) :=
  rfl

/-- C5 (amended): `parse_vep` skips exactly the lines that start with `#`,
wherever they occur — the first line is skipped only if it starts with
`#` — and every line not starting with `#` is parsed as a data record, in
order (its tab-field 0 becomes the record's identifier). -/
theorem c5_hash_lines_skipped (lines : List String) :
    parse_vep lines =
      parse_vep (lines.filter (fun l => !(firstCharIs l '#'))) ∧
    ∀ ids refs muts, parse_vep lines = .ok (ids, refs, muts) →
      ids = (lines.filter (fun l => !(firstCharIs l '#'))).map
        (fun l => (splitTab l).headD "") :=
  ⟨parse_vep_filter lines,
   fun ids refs muts h => (parse_vep_shape lines ids refs muts h).1⟩

/-- C5 witness: the amended statement instantiated on the example file
(`#` header line plus one record). -/
theorem c5_witness :
    parse_vep vepEx =
      parse_vep (vepEx.filter (fun l => !(firstCharIs l '#'))) ∧
    (["id1"] : List String) =
      (vepEx.filter (fun l => !(firstCharIs l '#'))).map
        (fun l => (splitTab l).headD "") :=
  ⟨(c5_hash_lines_skipped vepEx).1,
   (c5_hash_lines_skipped vepEx).2 ["id1"] ["A"] ["V"] rfl⟩

/-! ## claim C6 -/

/-- C6 counterexample: the output filename `out.tsvx` does not have a
`.tsv` suffix, yet the driver accepts it (the check is a substring test)
and the pipeline runs to completion — refuting the claim that any output
path whose filename lacks a `.tsv` suffix is rejected. -/
theorem c6_counterexample :
    strEndsWith "out.tsvx" ".tsv" = false ∧
    main vepEx blosumEx "d/out.tsvx" fsEx = .ok "# ID\tScore\nid1\t0\n" :=
  ⟨rfl, rfl⟩

/-- C6 (amended): the driver rejects any output path whose filename does
not contain `.tsv` as a substring (a filename merely containing `.tsv`,
such as `out.tsvx`, is accepted), and any output path whose parent
directory (per `os.path.split`) the filesystem reports as non-existent;
in both cases it aborts with the corresponding error message before
reading any input file (the conclusion holds for all input contents). -/
theorem c6_path_validation (p : String) (v b : List String)
    (fs : String → Bool) :
    (strContains (os_path_split p).2 ".tsv" = false →
      main v b p fs = .error (tsvErrMsg (os_path_split p).2)) ∧
    (strContains (os_path_split p).2 ".tsv" = true →
      fs (os_path_split p).1 = false →
      main v b p fs = .error (dirErrMsg (os_path_split p).1)) := by
  constructor
  · intro h
    simp [main, h]
  · intro h1 h2
    simp [main, h1, h2]

/-- C6 witness: a `.txt` output path is rejected with the filename
message; a `.tsv` path in a missing directory is rejected with the
directory message — for the concrete example inputs. -/
theorem c6_witness :
    main vepEx blosumEx "out/result.txt" fsEx =
      .error (tsvErrMsg (os_path_split "out/result.txt").2) ∧
    main vepEx blosumEx "missing/out.tsv" fsEx =
      .error (dirErrMsg (os_path_split "missing/out.tsv").1) :=
  ⟨(c6_path_validation "out/result.txt" vepEx blosumEx fsEx).1 rfl,
   (c6_path_validation "missing/out.tsv" vepEx blosumEx fsEx).2 rfl rfl⟩

/-! ## claim C7 -/

/-- C7: a variant file containing a data line whose ref/mut field does not
split on `/` into exactly two parts makes `parse_vep` fail, and therefore
the whole run abort with an error for any matrix input, output path and
filesystem — so no output content is ever produced (output exists only in
the `.ok` case, and variant parsing completes before any output is
written). -/
theorem c7_malformed_slash_aborts (vepLines : List String) (l vars : String)
    (hmem : l ∈ vepLines) (hdata : firstCharIs l '#' = false)
    (hfield : (splitTab l).get? 1 = some vars)
    (hslash : (splitSlash vars).length ≠ 2) :
    (∃ e, parse_vep vepLines = .error e) ∧
    ∀ blosumLines out fs, ∃ e,
      main vepLines blosumLines out fs = .error e := by
  have hp := parse_vep_err_of_bad vepLines l vars hdata hfield hslash hmem
  refine ⟨hp, ?_⟩
  intro b out fs
  obtain ⟨e, he⟩ := hp
  by_cases hc1 : strContains (os_path_split out).2 ".tsv"
  · by_cases hc2 : fs (os_path_split out).1
    · cases hb : parse_blosum b with
      | error eb => exact ⟨eb, by simp [main, hc1, hc2, hb]⟩
      | ok db => exact ⟨e, by simp [main, hc1, hc2, hb, he]⟩
    · exact ⟨dirErrMsg (os_path_split out).1, by simp [main, hc1, hc2]⟩
  · exact ⟨tsvErrMsg (os_path_split out).2, by simp [main, hc1]⟩

/-- C7 witness: the file with record `id1<TAB>AV<TAB>GCA` (no `/` in the
ref/mut field) aborts both at `parse_vep` and at `main`. -/
theorem c7_witness :
    (∃ e, parse_vep ["# hdr", "id1\tAV\tGCA"] = .error e) ∧
    ∀ blosumLines out fs, ∃ e,
      main ["# hdr", "id1\tAV\tGCA"] blosumLines out fs = .error e :=
  c7_malformed_slash_aborts ["# hdr", "id1\tAV\tGCA"] "id1\tAV\tGCA" "AV"
    (by decide) rfl rfl (by decide)

/-! ## claim C8 -/

/-- C8: the pipeline is deterministic — any two runs of `main` on the same
matrix lines, variant lines, output path and filesystem oracle produce
equal results — and every successful output has exactly the serialized
format: header line `# ID\tScore`, then one `id<TAB>score` line per
record in order, every line `\n`-terminated, nothing else. -/
theorem c8_pipeline_deterministic (v b : List String) (p : String)
    (fs : String → Bool) (r1 r2 : Except String String)
    (h1 : main v b p fs = r1) (h2 : main v b p fs = r2) :
    r1 = r2 ∧ ∀ out, r1 = .ok out → ∃ ids scores : List String,
      scores.length = ids.length ∧
      out = "# ID\tScore\n" ++
        concatAll ((ids.zip scores).map (fun q => q.1 ++ "\t" ++ q.2 ++ "\n")) := by
  subst h1
  refine ⟨h2, ?_⟩
  intro out hout
  simp only [main] at hout
  split at hout
  · cases hout
  · split at hout
    · cases hout
    · cases hb : parse_blosum b with
      | error eb => rw [hb] at hout; cases hout
      | ok db =>
          rw [hb] at hout
          dsimp only at hout
          cases hv : parse_vep v with
          | error ev => rw [hv] at hout; cases hout
          | ok triple =>
              obtain ⟨ids, refs, muts⟩ := triple
              rw [hv] at hout
              dsimp only at hout
              cases hrb : run_baseline ids refs muts db with
              | error er => rw [hrb] at hout; cases hout
              | ok scores =>
                  rw [hrb] at hout
                  dsimp only at hout
                  injection hout with hout
                  refine ⟨ids, scores,
                    scoreLoop_length refs muts db ids.length scores hrb, ?_⟩
                  rw [← hout, write_data]

/-- C8 witness: the deterministic result and its format on the concrete
example run. -/
theorem c8_witness :
    ((Except.ok "# ID\tScore\nid1\t0\n" : Except String String) =
      .ok "# ID\tScore\nid1\t0\n") ∧
    ∀ out,
      (Except.ok "# ID\tScore\nid1\t0\n" : Except String String) = .ok out →
      ∃ ids scores : List String, scores.length = ids.length ∧
        out = "# ID\tScore\n" ++
          concatAll ((ids.zip scores).map (fun q => q.1 ++ "\t" ++ q.2 ++ "\n")) :=
  c8_pipeline_deterministic vepEx blosumEx "d/out.tsv" fsEx _ _ rfl rfl

/-! ## claim C9 -/

/-- C9: an output path with no directory component (no `/` anywhere, e.g.
`result.tsv`) is rejected by the parent-directory check even though it
would name a file in the existing current directory: `os.path.split`
yields the empty directory string, and `os.path.exists("")` is `False` in
Python (hypothesis `hfs` on the oracle), so `main` exits with the
directory error naming the empty string — before reading any input. -/
theorem c9_bare_filename_rejected (p : String) (v b : List String)
    (fs : String → Bool)
    (hns : '/' ∉ p.data)
    (htsv : strContains p ".tsv" = true)
    (hfs : fs "" = false) :
    main v b p fs = .error (dirErrMsg "") := by
  have hsp := os_path_split_no_slash p hns
  simp [main, hsp, htsv, hfs]

/-- C9 witness: `result.tsv` with an oracle under which every non-empty
path exists (and the empty string, per Python, does not). -/
theorem c9_witness :
    main vepEx blosumEx "result.tsv" (fun s => !(s == "")) =
      .error (dirErrMsg "") :=
  c9_bare_filename_rejected "result.tsv" vepEx blosumEx
    (fun s => !(s == "")) (by decide) rfl rfl

/-! ## claim C10 -/

/-- C10 counterexample: the line `" x 0"` begins with a space, so it is
not skipped by the `startswith('x')` test, and its row symbol `x` is
loaded into the matrix — the symbol `x` appears in the symbol set,
refuting "the symbol x can never appear in the matrix's symbol set". -/
theorem c10_counterexample :
    firstCharIs " x 0" 'x' = false ∧
    parse_blosum [" x 0"] = .ok [("x", [("x", "0")])] :=
  ⟨rfl, rfl⟩

/-- C10 (amended): `parse_blosum` skips every line whose first character
is `x`, wherever it occurs in the file — deleting such a line anywhere
leaves the result unchanged — so a data row whose *line* begins with `x`
is never loaded; however a row whose symbol is `x` can still be loaded
when the line begins with whitespace. -/
theorem c10_x_lines_skipped (pre post : List String) (l : String)
    (h : firstCharIs l 'x' = true) :
    parse_blosum (pre ++ l :: post) = parse_blosum (pre ++ post) := by
  rw [parse_blosum, parse_blosum, blosumLists_skip pre post l (Or.inr h)]

/-- C10 witness: the `x`-header line of the example matrix file is
skipped. -/
theorem c10_witness :
    parse_blosum (([] : List String) ++ "x A V" :: ["A 1"]) =
      parse_blosum ([] ++ ["A 1"]) :=
  c10_x_lines_skipped [] ["A 1"] "x A V" rfl

end Baseline
